import Mathlib

/-!
Verification of the real-time duplex voice session of the Gemini-Ultimate-Lab
repository (src/LiveLab.tsx together with the shared audio helpers
`encode`, `decode`, `decodeAudioData` of services/gemini).

The development shallowly embeds the component's state and its event handlers:
* the playback scheduler (the `nextStartTimeRef` cursor and the
  `sourcesRef` active-source set manipulated inside `onmessage`),
* the PCM codec (`onaudioprocess`'s 16-bit conversion, `encode`/`decode`
  base64 framing, `decodeAudioData`),
* the session lifecycle (`startSession`, `stopSession`, `onerror`,
  the connect `catch` handler, and the start/stop button dispatch).

Times, durations and audio samples are modelled as rationals; JavaScript
machine integers appear as explicit truncation and mod-2^16 wraparound.
-/

/-! ## Playback scheduler state (LiveLab.tsx lines 21-22)

`nextStartTime` mirrors `nextStartTimeRef.current`; `active` mirrors the
`sourcesRef` set of scheduled sources (identified by numeric ids, kept as a
list); `stopped` records the ids on which `source.stop()` has been called. -/

structure SchedState where
  nextStartTime : ℚ := 0
  active : List ℕ := []
  stopped : List ℕ := []
deriving DecidableEq

/-- One audio chunk arriving in `onmessage` (LiveLab.tsx lines 111, 114-120):
the cursor is first pulled up to the current device time `now`
(`nextStartTimeRef.current = Math.max(nextStartTimeRef.current, ctx.currentTime)`),
the source starts at that cursor value, the cursor then advances by the
chunk's duration, and the source joins the active set.  Returns the new
state and the chunk's start time. -/
def scheduleChunk (st : SchedState) (now dur : ℚ) (srcId : ℕ) : SchedState × ℚ :=
  let start := max st.nextStartTime now
  ({ st with nextStartTime := start + dur, active := st.active ++ [srcId] }, start)

/-- Interruption handling in `onmessage` (LiveLab.tsx lines 123-127):
`source.stop()` on every member of the active set, clear the set, reset the
cursor to 0. -/
def handleInterrupt (st : SchedState) : SchedState :=
  { nextStartTime := 0, active := [], stopped := st.stopped ++ st.active }

/-- Natural end of playback of one source (LiveLab.tsx line 117): the
`ended` listener removes the source from the active set. -/
def sourceEnded (st : SchedState) (srcId : ℕ) : SchedState :=
  { st with active := st.active.erase srcId }

/-- Start times produced by delivering a sequence of chunks, each given as a
pair (device time at arrival, duration), starting from cursor `next`
(the loop of LiveLab.tsx lines 111, 118-119 applied chunk by chunk). -/
def runSchedule (next : ℚ) : List (ℚ × ℚ) → List ℚ
  | [] => []
  | (now, dur) :: rest => max next now :: runSchedule (max next now + dur) rest

/-- Streaming regime hypothesis: every chunk of the list arrives while the
device clock is still at or before the playback cursor, the cursor advancing
by each chunk's duration. -/
def arrivalsBehind : ℚ → List (ℚ × ℚ) → Prop
  | _, [] => True
  | next, (now, dur) :: rest => now ≤ next ∧ arrivalsBehind (next + dur) rest

/-! ## PCM codec

`encode`/`decode` (services/gemini) are `btoa`/`atob` composed with
byte-to-character conversion, i.e. RFC 4648 base64 over the byte sequence;
the base64 table of the `btoa`/`atob` host builtins is modelled explicitly. -/

/-- Base64 alphabet used by `btoa`/`atob`. -/
def b64Alphabet : List Char :=
  "ABCDEFGHIJKLMNOPQRSTUVWXYZabcdefghijklmnopqrstuvwxyz0123456789+/".toList

/-- Character of a 6-bit group. -/
def b64Char (n : ℕ) : Char := b64Alphabet.getD n 'A'

/-- Index of an alphabet character (inverse table lookup of `atob`). -/
def b64Index (c : Char) : ℕ := b64Alphabet.indexOf c

/-- Source function `encode` (services/gemini): bytes to base64 text, as
`btoa` produces it, with `=` padding. -/
def encode : List ℕ → List Char
  | [] => []
  | [b1] => [b64Char (b1 / 4), b64Char (b1 % 4 * 16), '=', '=']
  | [b1, b2] => [b64Char (b1 / 4), b64Char (b1 % 4 * 16 + b2 / 16),
                 b64Char (b2 % 16 * 4), '=']
  | b1 :: b2 :: b3 :: rest =>
      b64Char (b1 / 4) :: b64Char (b1 % 4 * 16 + b2 / 16)
        :: b64Char (b2 % 16 * 4 + b3 / 64) :: b64Char (b3 % 64) :: encode rest

/-- Regroup a list of 6-bit values into bytes (`atob` core; a trailing
group of two or three sextets yields one or two bytes). -/
def sextetsToBytes : List ℕ → List ℕ
  | s1 :: s2 :: s3 :: s4 :: rest =>
      (s1 * 4 + s2 / 16) :: (s2 % 16 * 16 + s3 / 4) :: (s3 % 4 * 64 + s4)
        :: sextetsToBytes rest
  | [s1, s2, s3] => [s1 * 4 + s2 / 16, s2 % 16 * 16 + s3 / 4]
  | [s1, s2] => [s1 * 4 + s2 / 16]
  | _ => []

/-- Source function `decode` (services/gemini): base64 text to bytes, as
`atob` plus `charCodeAt` produce it (padding stripped, sextets regrouped). -/
def decode (cs : List Char) : List ℕ :=
  sextetsToBytes (((cs.filter (fun c => c ≠ '=')).map b64Index))

/-- Truncation toward zero, as JavaScript number-to-integer conversion
performs before storing into an `Int16Array`. -/
def ratTrunc (q : ℚ) : ℤ := if q < 0 then ⌈q⌉ else ⌊q⌋

/-- JavaScript `ToInt16`: truncate toward zero, wrap modulo 2^16 into
[-32768, 32768). -/
def toInt16 (q : ℚ) : ℤ :=
  let m := ratTrunc q % 65536
  if 32768 ≤ m then m - 65536 else m

/-- One captured sample as stored by `onaudioprocess` (LiveLab.tsx line 82):
`int16[i] = inputData[i] * 32768`. -/
def captureSample (x : ℚ) : ℤ := toInt16 (x * 32768)

/-- Little-endian bytes of one 16-bit value, as `new Uint8Array(int16.buffer)`
exposes them (LiveLab.tsx line 85). -/
def int16Bytes (n : ℤ) : List ℕ :=
  [(n % 65536).toNat % 256, (n % 65536).toNat / 256]

/-- Reinterpret two little-endian bytes as a signed 16-bit value, as
`new Int16Array(data.buffer)` does (services/gemini `decodeAudioData`). -/
def int16OfBytes (lo hi : ℕ) : ℤ :=
  if 32768 ≤ lo + 256 * hi then (lo : ℤ) + 256 * hi - 65536
  else (lo : ℤ) + 256 * hi

/-- Reinterpret a byte list pairwise as signed 16-bit values. -/
def bytesToInt16s : List ℕ → List ℤ
  | lo :: hi :: rest => int16OfBytes lo hi :: bytesToInt16s rest
  | _ => []

/-- The capture-side encoder of `onaudioprocess` (LiveLab.tsx lines 78-87):
scale by 32768, truncate to int16, serialize little-endian, base64-frame.
This is the spec's `encodeFrame`. -/
def encodeFrame (samples : List ℚ) : List Char :=
  encode (((samples.map captureSample).map int16Bytes).flatten)

/-- Source function `decodeAudioData` (services/gemini): reinterpret the
bytes as 16-bit integers, deinterleave `numChannels` channels, divide by
32768.  `new Int16Array(data.buffer)` throws when the byte length is not a
multiple of 2, modelled as `Except.error`. -/
def decodeAudioData (data : List ℕ) (numChannels : ℕ) :
    Except Unit (List (List ℚ)) :=
  if data.length % 2 ≠ 0 then .error ()
  else
    let dataInt16 := bytesToInt16s data
    let frameCount := dataInt16.length / numChannels
    .ok ((List.range numChannels).map (fun ch =>
      (List.range frameCount).map
        (fun i => ((dataInt16.getD (i * numChannels + ch) 0 : ℤ) : ℚ) / 32768)))

/-! ## Session lifecycle state (LiveLab.tsx lines 13-25)

One record for the React state and refs of the `LiveLab` component:
`isActive`, `isConnecting`, `authError`, `transcription` mirror the four
`useState` hooks; `isStopping` mirrors `isStoppingRef`; `session` mirrors
`sessionRef` (`some ()` = a connected transport handle); `sched` gathers
`nextStartTimeRef` and `sourcesRef`.  Instrumentation fields record the
externally visible resource effects: `closeCount` counts `session.close()`
calls, `micHeld`/`micAcquisitions` track the `getUserMedia` stream,
`connectionsOpened` counts `ai.live.connect` calls, and `sentFrames` logs
the payloads passed to `session.sendRealtimeInput`. -/

structure LiveState where
  isActive : Bool := false
  isConnecting : Bool := false
  authError : Bool := false
  isStopping : Bool := false
  session : Option Unit := none
  closeCount : ℕ := 0
  transcription : List String := []
  sched : SchedState := {}
  micHeld : Bool := false
  micAcquisitions : ℕ := 0
  connectionsOpened : ℕ := 0
  sentFrames : List (List Char) := []
deriving DecidableEq

/-- Transcript append of the session-end marker (LiveLab.tsx lines 43-47):
suppressed when the last entry already is the marker. -/
def appendEnded (log : List String) : List String :=
  if log.getLast? = some "[Session Ended]" then log else log ++ ["[Session Ended]"]

/-- Source function `stopSession` (LiveLab.tsx lines 27-53): re-entry is
suppressed by the `isStoppingRef` latch; otherwise the latch is set,
`isActive` cleared, the transport session closed (close errors swallowed)
and nulled, the end marker appended, and every scheduled source stopped and
removed.  The microphone stream and the audio contexts are not touched:
`stopSession` holds no reference to them. -/
def stopSession (s : LiveState) : LiveState :=
  if s.isStopping then s
  else
    { s with
      isStopping := true,
      isActive := false,
      session := none,
      closeCount := s.closeCount + (match s.session with | some _ => 1 | none => 0),
      transcription := appendEnded s.transcription,
      sched := { s.sched with
                   active := [],
                   stopped := s.sched.stopped ++ s.sched.active } }

/-- Opening statements of `startSession` (LiveLab.tsx lines 57-59), executed
before the microphone is requested: clear the authorization overlay, show
the connecting indicator, reset the stop latch. -/
def startGuardReset (s : LiveState) : LiveState :=
  { s with authError := false, isConnecting := true, isStopping := false }

/-- Remainder of a successful `startSession` (LiveLab.tsx lines 61, 66, 148
and the `onopen` callback lines 69-72): acquire the microphone stream, open
the transport connection, store the session handle; `onopen` clears the
connecting indicator, marks the session active and logs the connection
marker.  No lifecycle-state guard exists anywhere on this path. -/
def startAcquireAndConnect (s1 : LiveState) : LiveState :=
  let s2 := { s1 with micHeld := true, micAcquisitions := s1.micAcquisitions + 1 }
  { s2 with
    connectionsOpened := s2.connectionsOpened + 1,
    session := some (),
    isConnecting := false,
    isActive := true,
    transcription := s2.transcription ++ ["[Connection Established]"] }

/-- Source function `startSession` (LiveLab.tsx lines 55-156), successful
path. -/
def startSessionRun (s : LiveState) : LiveState :=
  startAcquireAndConnect (startGuardReset s)

/-- The session button (LiveLab.tsx lines 185-194): `onClick` dispatches to
`stopSession` while active and to `startSession` otherwise; the button is
disabled (no click possible) while connecting. -/
def callButton (s : LiveState) : LiveState :=
  if s.isConnecting then s
  else if s.isActive then stopSession s
  else startSessionRun s

/-- Capture callback `onaudioprocess` (LiveLab.tsx lines 77-95): the frame
is encoded and then sent through the session only when the stop latch is
not set; a latched frame is dropped, not queued. -/
def onaudioprocess (s : LiveState) (inputData : List ℚ) : LiveState :=
  if s.isStopping then s
  else { s with sentFrames := s.sentFrames ++ [encodeFrame inputData] }

/-- Leading-match test for character lists (helper for the substring checks
of the error handlers). -/
def leadsWith : List Char → List Char → Bool
  | [], _ => true
  | _ :: _, [] => false
  | a :: as, b :: bs => a == b && leadsWith as bs

/-- Substring test: JavaScript `String.prototype.includes`. -/
def hasSub (pat : List Char) : List Char → Bool
  | [] => leadsWith pat []
  | c :: cs => leadsWith pat (c :: cs) || hasSub pat cs

/-- Authorization-failure test of LiveLab.tsx lines 131 and 151:
`message.includes('403') || message.toLowerCase().includes('permission')`. -/
def isAuthFailure (msg : String) : Bool :=
  hasSub "403".toList msg.toList
    || hasSub "permission".toList (msg.toList.map Char.toLower)

/-- Transport error callback `onerror` (LiveLab.tsx lines 129-135): set the
authorization overlay when the message matches, then always `stopSession`. -/
def onerror (s : LiveState) (msg : String) : LiveState :=
  stopSession (if isAuthFailure msg then { s with authError := true } else s)

/-- The `catch` handler of `startSession` (LiveLab.tsx lines 149-155),
reached when microphone acquisition or connection open throws: set the
authorization overlay when the message matches, clear the connecting
indicator.  It does not call `stopSession`. -/
def startCatch (s : LiveState) (msg : String) : LiveState :=
  let s1 := if isAuthFailure msg then { s with authError := true } else s
  { s1 with isConnecting := false }

/-- One inbound transport message (LiveLab.tsx `onmessage` parameter):
optional transcription text, optional base64 audio payload, interruption
flag. -/
structure ServerMessage where
  transcriptText : Option String := none
  audioB64 : Option (List Char) := none
  interrupted : Bool := false
deriving DecidableEq

/-- The trailing interruption check of `onmessage` (LiveLab.tsx
lines 123-127). -/
def applyInterrupted (s : LiveState) (m : ServerMessage) : LiveState :=
  if m.interrupted then { s with sched := handleInterrupt s.sched } else s

/-- Message callback `onmessage` (LiveLab.tsx lines 100-128) at device time
`now`, with `srcId` the id of the buffer source a scheduled chunk would
create.  Returns the state after the handler together with a flag telling
whether an exception escaped the (async) handler: the handler has no
try/catch, so a `decodeAudioData` failure propagates after the earlier
mutations (transcript append, cursor pull-up) have already happened, and the
interruption check is skipped for that message. -/
def onmessage (s : LiveState) (now : ℚ) (m : ServerMessage) (srcId : ℕ) :
    LiveState × Bool :=
  if s.isStopping then (s, false)
  else
    let s1 := match m.transcriptText with
      | some t => { s with transcription := s.transcription ++ ["AI: " ++ t] }
      | none => s
    match m.audioB64 with
    | some payload =>
        let cursor := max s1.sched.nextStartTime now
        let s2 := { s1 with sched := { s1.sched with nextStartTime := cursor } }
        match decodeAudioData (decode payload) 1 with
        | .error _ => (s2, true)
        | .ok channels =>
            let dur : ℚ := ((channels.headD []).length : ℚ) / 24000
            let s3 := { s2 with sched :=
              { s2.sched with
                  nextStartTime := cursor + dur,
                  active := s2.sched.active ++ [srcId] } }
            (applyInterrupted s3 m, false)
    | none => (applyInterrupted s1 m, false)

/-- A connected, active session state, used as a concrete test fixture. -/
def activeState : LiveState :=
  { isActive := true, session := some (),
    transcription := ["[Connection Established]"], sched := ⟨2, [7], []⟩,
    micHeld := true, micAcquisitions := 1, connectionsOpened := 1 }

/-- A connecting-phase state, used as a concrete test fixture. -/
def connectingState : LiveState :=
  { isConnecting := true, micHeld := true, micAcquisitions := 1 }

/-! ## Theorems

Helper lemmas first, then one theorem per claim (with witness or
counterexample theorems where required). -/

/-- Sanity check: `runSchedule` is the iterated form of `scheduleChunk`. -/
theorem runSchedule_eq_scheduleChunk (st : SchedState) (now dur : ℚ) (srcId : ℕ)
    (rest : List (ℚ × ℚ)) :
    runSchedule st.nextStartTime ((now, dur) :: rest)
      = (scheduleChunk st now dur srcId).2
          :: runSchedule (scheduleChunk st now dur srcId).1.nextStartTime rest := rfl

/-- The base64 table inverts its own lookup. -/
theorem b64Index_b64Char : ∀ n < 64, b64Index (b64Char n) = n := by decide

/-- No alphabet character is the padding character. -/
theorem b64Char_ne_pad : ∀ n < 64, b64Char n ≠ '=' := by decide

/-- `decode` inverts `encode` on byte sequences. -/
theorem encode_decode (bs : List ℕ) (h : ∀ b ∈ bs, b < 256) :
    decode (encode bs) = bs := by
  induction bs using encode.induct with
  | case1 => rfl
  | case2 b1 =>
      have hb1 : b1 < 256 := h b1 (by simp)
      have h1 : b64Char (b1 / 4) ≠ '=' := b64Char_ne_pad _ (by omega)
      have h2 : b64Char (b1 % 4 * 16) ≠ '=' := b64Char_ne_pad _ (by omega)
      have e1 : b64Index (b64Char (b1 / 4)) = b1 / 4 := b64Index_b64Char _ (by omega)
      have e2 : b64Index (b64Char (b1 % 4 * 16)) = b1 % 4 * 16 :=
        b64Index_b64Char _ (by omega)
      simp [decode, encode, h1, h2, e1, e2, sextetsToBytes]
      omega
  | case3 b1 b2 =>
      have hb1 : b1 < 256 := h b1 (by simp)
      have hb2 : b2 < 256 := h b2 (by simp)
      have h1 : b64Char (b1 / 4) ≠ '=' := b64Char_ne_pad _ (by omega)
      have h2 : b64Char (b1 % 4 * 16 + b2 / 16) ≠ '=' := b64Char_ne_pad _ (by omega)
      have h3 : b64Char (b2 % 16 * 4) ≠ '=' := b64Char_ne_pad _ (by omega)
      have e1 : b64Index (b64Char (b1 / 4)) = b1 / 4 := b64Index_b64Char _ (by omega)
      have e2 : b64Index (b64Char (b1 % 4 * 16 + b2 / 16)) = b1 % 4 * 16 + b2 / 16 :=
        b64Index_b64Char _ (by omega)
      have e3 : b64Index (b64Char (b2 % 16 * 4)) = b2 % 16 * 4 :=
        b64Index_b64Char _ (by omega)
      simp [decode, encode, h1, h2, h3, e1, e2, e3, sextetsToBytes]
      omega
  | case4 b1 b2 b3 rest ih =>
      have hb1 : b1 < 256 := h b1 (by simp)
      have hb2 : b2 < 256 := h b2 (by simp)
      have hb3 : b3 < 256 := h b3 (by simp)
      have h1 : b64Char (b1 / 4) ≠ '=' := b64Char_ne_pad _ (by omega)
      have h2 : b64Char (b1 % 4 * 16 + b2 / 16) ≠ '=' := b64Char_ne_pad _ (by omega)
      have h3 : b64Char (b2 % 16 * 4 + b3 / 64) ≠ '=' := b64Char_ne_pad _ (by omega)
      have h4 : b64Char (b3 % 64) ≠ '=' := b64Char_ne_pad _ (by omega)
      have e1 : b64Index (b64Char (b1 / 4)) = b1 / 4 := b64Index_b64Char _ (by omega)
      have e2 : b64Index (b64Char (b1 % 4 * 16 + b2 / 16)) = b1 % 4 * 16 + b2 / 16 :=
        b64Index_b64Char _ (by omega)
      have e3 : b64Index (b64Char (b2 % 16 * 4 + b3 / 64)) = b2 % 16 * 4 + b3 / 64 :=
        b64Index_b64Char _ (by omega)
      have e4 : b64Index (b64Char (b3 % 64)) = b3 % 64 := b64Index_b64Char _ (by omega)
      have ih' := ih (fun b hb => h b (by simp [hb]))
      simp only [decode, encode, List.filter_cons, List.map_cons] at ih' ⊢
      simp [h1, h2, h3, h4, e1, e2, e3, e4, sextetsToBytes] at ih' ⊢
      refine ⟨by omega, by omega, by omega, ?_⟩
      exact ih'

/-- Both little-endian bytes of a 16-bit value are bytes. -/
theorem int16Bytes_lt (n : ℤ) : ∀ b ∈ int16Bytes n, b < 256 := by
  simp only [int16Bytes, List.mem_cons, List.mem_singleton, List.not_mem_nil, or_false]
  rintro b (rfl | rfl) <;> omega

/-- Reading back the two little-endian bytes of an in-range 16-bit value. -/
theorem bytesToInt16s_int16Bytes (n : ℤ) (h1 : -32768 ≤ n) (h2 : n < 32768)
    (tail : List ℕ) :
    bytesToInt16s (int16Bytes n ++ tail) = n :: bytesToInt16s tail := by
  simp only [int16Bytes, List.cons_append, List.nil_append, bytesToInt16s,
    int16OfBytes, List.nil_append]
  congr 1
  split <;> omega

/-- Reading back a packed list of in-range 16-bit values. -/
theorem bytesToInt16s_flatten (ns : List ℤ)
    (h : ∀ n ∈ ns, -32768 ≤ n ∧ n < 32768) :
    bytesToInt16s ((ns.map int16Bytes).flatten) = ns := by
  induction ns with
  | nil => rfl
  | cons a t ih =>
      have ha := h a (by simp)
      simp only [List.map_cons, List.flatten_cons]
      rw [bytesToInt16s_int16Bytes a ha.1 ha.2]
      rw [ih (fun n hn => h n (by simp [hn]))]

/-- A packed list of 16-bit values has even byte length. -/
theorem flatten_int16Bytes_even (ns : List ℤ) :
    ((ns.map int16Bytes).flatten).length % 2 = 0 := by
  induction ns with
  | nil => rfl
  | cons a t ih =>
      simp only [List.map_cons, List.flatten_cons, List.length_append, int16Bytes,
        List.length_cons, List.length_nil]
      omega

/-- All elements of a packed list of 16-bit values are bytes. -/
theorem flatten_int16Bytes_lt (ns : List ℤ) :
    ∀ b ∈ (ns.map int16Bytes).flatten, b < 256 := by
  intro b hb
  rw [List.mem_flatten] at hb
  obtain ⟨l, hl, hbl⟩ := hb
  rw [List.mem_map] at hl
  obtain ⟨n, _, rfl⟩ := hl
  exact int16Bytes_lt n b hbl

/-- Capture of a sample in [-1, 1): no wraparound occurs, the stored 16-bit
value is in range, and dividing it back by 32768 loses less than 1/32768. -/
theorem captureSample_spec (x : ℚ) (hx1 : -1 ≤ x) (hx2 : x < 1) :
    -32768 ≤ captureSample x ∧ captureSample x < 32768 ∧
      |x - (captureSample x : ℚ) / 32768| < 1 / 32768 := by
  have hq1 : (-32768 : ℚ) ≤ x * 32768 := by linarith
  have hq2 : x * 32768 < 32768 := by linarith
  set q : ℚ := x * 32768 with hq
  have htb : -32768 ≤ ratTrunc q ∧ ratTrunc q < 32768 ∧
      |q - (ratTrunc q : ℚ)| < 1 := by
    unfold ratTrunc
    split
    · rename_i hneg
      have c1 : q ≤ (⌈q⌉ : ℚ) := Int.le_ceil q
      have c2 : (⌈q⌉ : ℚ) < q + 1 := Int.ceil_lt_add_one q
      refine ⟨?_, ?_, ?_⟩
      · exact_mod_cast le_trans hq1 c1
      · have : (⌈q⌉ : ℚ) < 32768 := by linarith
        exact_mod_cast this
      · rw [abs_lt]; constructor <;> linarith
    · rename_i hpos
      have c1 : (⌊q⌋ : ℚ) ≤ q := Int.floor_le q
      have c2 : q < (⌊q⌋ : ℚ) + 1 := Int.lt_floor_add_one q
      refine ⟨?_, ?_, ?_⟩
      · have : (-32768 : ℚ) ≤ (⌊q⌋ : ℚ) := by linarith
        exact_mod_cast this
      · exact_mod_cast lt_of_le_of_lt c1 hq2
      · rw [abs_lt]; constructor <;> linarith
  obtain ⟨ht1, ht2, ht3⟩ := htb
  have hcap : captureSample x = ratTrunc q := by
    simp only [captureSample, toInt16, ← hq]
    omega
  rw [hcap]
  refine ⟨ht1, ht2, ?_⟩
  have hrw : x - (ratTrunc q : ℚ) / 32768 = (q - (ratTrunc q : ℚ)) / 32768 := by
    rw [hq]; ring
  rw [hrw, abs_div, abs_of_pos (by norm_num : (0:ℚ) < 32768)]
  rw [div_lt_div_iff_of_pos_right (by norm_num : (0:ℚ) < 32768)]
  exact ht3

/-- Indexing form of mapping division by 32768 over a 16-bit value list. -/
theorem range_map_div (l : List ℤ) :
    (List.range l.length).map (fun i => ((l.getD i 0 : ℤ) : ℚ) / 32768)
      = l.map (fun n : ℤ => (n : ℚ) / 32768) := by
  induction l with
  | nil => rfl
  | cons a t ih =>
      rw [List.length_cons, List.range_succ_eq_map, List.map_cons, List.map_map]
      simp only [List.getD_cons_zero, Function.comp_def, Nat.succ_eq_add_one,
        List.getD_cons_succ]
      rw [ih, List.map_cons]

/-- Evaluation of `decodeAudioData` on even-length mono input. -/
theorem decodeAudioData_mono (data : List ℕ) (h : data.length % 2 = 0) :
    decodeAudioData data 1
      = .ok [(bytesToInt16s data).map (fun n : ℤ => (n : ℚ) / 32768)] := by
  unfold decodeAudioData
  rw [if_neg (by omega)]
  show Except.ok ((List.range 1).map (fun ch =>
      (List.range ((bytesToInt16s data).length / 1)).map
        (fun i => (((bytesToInt16s data).getD (i * 1 + ch) 0 : ℤ) : ℚ) / 32768))) = _
  have h1 : List.range 1 = [0] := rfl
  rw [h1]
  simp only [List.map_cons, List.map_nil, Nat.mul_one, Nat.add_zero, Nat.div_one]
  rw [range_map_div (bytesToInt16s data)]

/-- C4 (counterexample): the round-trip claim fails at the in-range sample
1.  `1 * 32768 = 32768` wraps to `-32768` in the `Int16Array`, so the
decoded sample is `-1`, an error of 2, far above 1/32768. -/
theorem C4_roundtrip_fails_at_one :
    decodeAudioData (decode (encodeFrame [1])) 1 = Except.ok [[-1]]
      ∧ ¬ (|(1 : ℚ) - (-1)| ≤ 1 / 32768) := by
  constructor
  · have hone : captureSample 1 = -32768 := by
      have h1 : ratTrunc ((1 : ℚ) * 32768) = 32768 := by
        unfold ratTrunc
        rw [if_neg (by norm_num)]
        norm_num
      simp only [captureSample, toInt16, h1]
      norm_num
    have hdec : decode (encodeFrame [1])
        = (([(1 : ℚ)].map captureSample).map int16Bytes).flatten :=
      encode_decode _ (flatten_int16Bytes_lt _)
    rw [hdec, decodeAudioData_mono _ (flatten_int16Bytes_even _)]
    simp only [List.map_cons, List.map_nil, hone]
    rw [show bytesToInt16s ([int16Bytes (-32768)].flatten) = [-32768] by decide]
    norm_num
  · norm_num

/-- C4 (amended): for every sample sequence with values in [-1, 1) —
excluding 1 itself, where 16-bit wraparound maps the sample to -1 — decoding
the encoded frame (`decodeAudioData` after `decode` after the capture-side
encoding) reproduces each sample within a quantization error of 1/32768. -/
theorem C4_roundtrip_amended (samples : List ℚ)
    (h : ∀ x ∈ samples, -1 ≤ x ∧ x < 1) :
    ∃ ys, decodeAudioData (decode (encodeFrame samples)) 1 = Except.ok [ys]
      ∧ List.Forall₂ (fun x y => |x - y| ≤ 1 / 32768) samples ys := by
  have hspec := fun x hx => captureSample_spec x (h x hx).1 (h x hx).2
  have hbounds : ∀ n ∈ samples.map captureSample, -32768 ≤ n ∧ n < 32768 := by
    intro n hn
    rw [List.mem_map] at hn
    obtain ⟨x, hx, rfl⟩ := hn
    exact ⟨(hspec x hx).1, (hspec x hx).2.1⟩
  have hdec : decode (encodeFrame samples)
      = ((samples.map captureSample).map int16Bytes).flatten := by
    unfold encodeFrame
    exact encode_decode _ (flatten_int16Bytes_lt _)
  refine ⟨samples.map (fun x => (captureSample x : ℚ) / 32768), ?_, ?_⟩
  · rw [hdec, decodeAudioData_mono _ (flatten_int16Bytes_even _),
      bytesToInt16s_flatten _ hbounds, List.map_map]
    rfl
  · rw [List.forall₂_map_right_iff, List.forall₂_same]
    intro x hx
    exact le_of_lt (hspec x hx).2.2

/-- C4 (witness): the amended round trip at the concrete frame
[1/2, -1/3]. -/
theorem C4_roundtrip_amended_witness :
    ∃ ys, decodeAudioData (decode (encodeFrame [(1:ℚ)/2, -1/3])) 1 = Except.ok [ys]
      ∧ List.Forall₂ (fun x y => |x - y| ≤ 1 / 32768) [(1:ℚ)/2, -1/3] ys :=
  C4_roundtrip_amended [(1:ℚ)/2, -1/3] (by
    intro x hx
    simp only [List.mem_cons, List.not_mem_nil, or_false] at hx
    rcases hx with rfl | rfl <;> norm_num)

/-- The scheduler emits one start time per delivered chunk. -/
theorem runSchedule_length (next : ℚ) (l : List (ℚ × ℚ)) :
    (runSchedule next l).length = l.length := by
  induction l generalizing next with
  | nil => rfl
  | cons p rest ih =>
      rcases p with ⟨now, dur⟩
      simp [runSchedule, ih]

/-- When every arrival stays behind the cursor, each start time is the
initial cursor plus the durations of all prior chunks. -/
theorem runSchedule_behind (l : List (ℚ × ℚ)) :
    ∀ next : ℚ, arrivalsBehind next l → ∀ i < l.length,
      (runSchedule next l).getD i 0 = next + ((l.map Prod.snd).take i).sum := by
  induction l with
  | nil =>
      intro next _ i hi
      simp at hi
  | cons p rest ih =>
      rcases p with ⟨now, dur⟩
      intro next h i hi
      obtain ⟨hle, hrest⟩ := h
      have hmax : max next now = next := max_eq_left hle
      match i with
      | 0 => simp [runSchedule, hmax]
      | Nat.succ j =>
          have hj : j < rest.length := by simpa using hi
          simp only [runSchedule, hmax, List.getD_cons_succ, List.map_cons,
            List.take_succ_cons, List.sum_cons]
          rw [ih (next + dur) hrest j hj]
          ring

/-- Peeling the last summand off a sum of the first i+1 entries. -/
theorem sum_take_succ_getD (l : List ℚ) :
    ∀ i < l.length, (l.take (i + 1)).sum = (l.take i).sum + l.getD i 0 := by
  induction l with
  | nil =>
      intro i hi
      simp at hi
  | cons a t ih =>
      intro i hi
      match i with
      | 0 => simp
      | Nat.succ j =>
          have hj : j < t.length := by simpa using hi
          simp only [List.take_succ_cons, List.sum_cons, List.getD_cons_succ]
          rw [ih j hj]
          ring

/-- Sums of initial segments of a nonnegative list grow with the length. -/
theorem sum_take_mono (l : List ℚ) (h : ∀ x ∈ l, 0 ≤ x) :
    ∀ m k, m ≤ k → (l.take m).sum ≤ (l.take k).sum := by
  induction l with
  | nil => simp
  | cons a t ih =>
      intro m k hmk
      match m, k with
      | 0, k =>
          simp only [List.take_zero, List.sum_nil]
          exact List.sum_nonneg (fun x hx => h x (List.take_subset k _ hx))
      | m + 1, k + 1 =>
          simp only [List.take_succ_cons, List.sum_cons]
          have := ih (fun x hx => h x (List.mem_cons_of_mem a hx)) m k (by omega)
          linarith

/-- C1: for every chunk sequence delivered without an interruption signal,
in the streaming regime where no later chunk arrives after its scheduled
cursor time (the regime the max-anchoring of line 111 otherwise corrects),
the i-th scheduled start time equals the initial offset `max c now1` plus
the sum of all prior durations, and no two playback intervals overlap
(each interval ends no later than every later one starts). -/
theorem C1_scheduler_gapless (c now₁ d₁ : ℚ) (rest : List (ℚ × ℚ))
    (hd : ∀ p ∈ (now₁, d₁) :: rest, 0 ≤ p.2)
    (hbehind : arrivalsBehind (max c now₁ + d₁) rest) :
    (∀ i < (runSchedule c ((now₁, d₁) :: rest)).length,
        (runSchedule c ((now₁, d₁) :: rest)).getD i 0
          = max c now₁ + ((((now₁, d₁) :: rest).map Prod.snd).take i).sum)
    ∧ (∀ i j, i < j → j < (runSchedule c ((now₁, d₁) :: rest)).length →
        (runSchedule c ((now₁, d₁) :: rest)).getD i 0
            + (((now₁, d₁) :: rest).map Prod.snd).getD i 0
          ≤ (runSchedule c ((now₁, d₁) :: rest)).getD j 0) := by
  have hlen : (runSchedule c ((now₁, d₁) :: rest)).length = rest.length + 1 := by
    simp [runSchedule_length]
  have hfst : ∀ i < rest.length + 1,
      (runSchedule c ((now₁, d₁) :: rest)).getD i 0
        = max c now₁ + ((((now₁, d₁) :: rest).map Prod.snd).take i).sum := by
    intro i hi
    match i with
    | 0 => simp [runSchedule]
    | Nat.succ j =>
        have hj : j < rest.length := by omega
        show (max c now₁ :: runSchedule (max c now₁ + d₁) rest).getD (j + 1) 0 = _
        simp only [List.getD_cons_succ, List.map_cons, List.take_succ_cons,
          List.sum_cons]
        rw [runSchedule_behind rest (max c now₁ + d₁) hbehind j hj]
        ring
  have hnn : ∀ x ∈ ((now₁, d₁) :: rest).map Prod.snd, 0 ≤ x := by
    intro x hx
    rw [List.mem_map] at hx
    obtain ⟨p, hp, rfl⟩ := hx
    exact hd p hp
  refine ⟨fun i hi => hfst i (by omega), ?_⟩
  intro i j hij hj
  rw [hlen] at hj
  have hi : i < rest.length + 1 := by omega
  rw [hfst i hi, hfst j hj]
  have hdlen : (((now₁, d₁) :: rest).map Prod.snd).length = rest.length + 1 := by
    simp
  have hsum := sum_take_succ_getD (((now₁, d₁) :: rest).map Prod.snd) i (by omega)
  have hmono := sum_take_mono _ hnn (i + 1) j (by omega)
  linarith

/-- C1 (witness): three 1-second chunks arriving at device times 0, 1/2, 2
from cursor 0: the third starts at 0 + (1 + 1). -/
theorem C1_scheduler_gapless_witness :
    (runSchedule 0 [((0:ℚ), (1:ℚ)), (1/2, 1), (2, 1)]).getD 2 0
      = max (0:ℚ) 0 + (([((0:ℚ), (1:ℚ)), (1/2, 1), (2, 1)].map Prod.snd).take 2).sum :=
  (C1_scheduler_gapless 0 0 1 [(1/2, 1), (2, 1)]
    (by
      intro p hp
      simp only [List.mem_cons, List.not_mem_nil, or_false] at hp
      rcases hp with rfl | rfl | rfl <;> norm_num)
    (by
      simp only [arrivalsBehind, max_self]
      norm_num)).1 2 (by simp [runSchedule_length])

/-- C2: processing an interruption signal from any scheduler state stops
every source of the active set, empties the set, and resets the cursor to 0,
so the next chunk's start time is exactly the current device time. -/
theorem C2_interruption (st : SchedState) (now dur : ℚ) (srcId : ℕ)
    (hnow : 0 ≤ now) :
    (handleInterrupt st).active = []
    ∧ (handleInterrupt st).nextStartTime = 0
    ∧ (∀ s ∈ st.active, s ∈ (handleInterrupt st).stopped)
    ∧ (scheduleChunk (handleInterrupt st) now dur srcId).2 = now := by
  refine ⟨rfl, rfl, ?_, ?_⟩
  · intro s hs
    simp [handleInterrupt, hs]
  · simp [scheduleChunk, handleInterrupt, max_eq_right hnow]

/-- C2 (witness): interruption at cursor 5 with active sources 1 and 2,
then a chunk arriving at device time 7/2 starts at 7/2. -/
theorem C2_interruption_witness :
    (handleInterrupt ⟨5, [1, 2], []⟩).active = []
    ∧ (handleInterrupt ⟨5, [1, 2], []⟩).nextStartTime = 0
    ∧ (∀ s ∈ (⟨5, [1, 2], []⟩ : SchedState).active,
        s ∈ (handleInterrupt ⟨5, [1, 2], []⟩).stopped)
    ∧ (scheduleChunk (handleInterrupt ⟨5, [1, 2], []⟩) (7/2) 1 3).2 = 7/2 :=
  C2_interruption ⟨5, [1, 2], []⟩ (7/2) 1 3 (by norm_num)

theorem stopSession_of_latched (s : LiveState) (h : s.isStopping = true) :
    stopSession s = s := by
  unfold stopSession
  rw [if_pos h]

theorem stopSession_not_latched (s : LiveState) (h : s.isStopping = false) :
    stopSession s =
      { s with
        isStopping := true,
        isActive := false,
        session := none,
        closeCount := s.closeCount + (match s.session with | some _ => 1 | none => 0),
        transcription := appendEnded s.transcription,
        sched := { s.sched with
                     active := [],
                     stopped := s.sched.stopped ++ s.sched.active } } := by
  unfold stopSession
  rw [if_neg (by simp [h])]

theorem stopSession_authError (s : LiveState) :
    (stopSession s).authError = s.authError := by
  unfold stopSession
  split <;> rfl

/-- C3: from an unlatched session state (fresh latch, transport connected,
transcript not already ending in the marker), N consecutive `stopSession`
calls (N >= 1) equal a single call; that single call appends exactly one
"[Session Ended]" transcript entry, closes the transport connection exactly
once, and force-stops and clears the scheduled playback exactly once.  The
latched flag makes every later call a no-op. -/
theorem C3_stop_idempotent (s : LiveState) (N : ℕ) (hN : 1 ≤ N)
    (hlatch : s.isStopping = false)
    (hlast : s.transcription.getLast? ≠ some "[Session Ended]")
    (hsess : s.session = some ()) :
    stopSession^[N] s = stopSession s
    ∧ (stopSession s).transcription = s.transcription ++ ["[Session Ended]"]
    ∧ (stopSession s).closeCount = s.closeCount + 1
    ∧ (stopSession s).session = none
    ∧ (stopSession s).sched.active = []
    ∧ (stopSession s).sched.stopped = s.sched.stopped ++ s.sched.active := by
  have hstep := stopSession_not_latched s hlatch
  have hlatched : (stopSession s).isStopping = true := by rw [hstep]
  have hfix : stopSession (stopSession s) = stopSession s :=
    stopSession_of_latched _ hlatched
  have hiter : ∀ n, stopSession^[n + 1] s = stopSession s := by
    intro n
    induction n with
    | zero => rfl
    | succ m ih =>
        rw [Function.iterate_succ_apply', ih, hfix]
  obtain ⟨M, rfl⟩ : ∃ M, N = M + 1 := ⟨N - 1, by omega⟩
  refine ⟨hiter M, ?_, ?_, ?_, ?_, ?_⟩ <;>
    simp [hstep, appendEnded, hlast, hsess]

/-- C3 (witness): three consecutive `stopSession` calls on the concrete
active fixture collapse to one. -/
theorem C3_stop_idempotent_witness :
    stopSession^[3] activeState = stopSession activeState
    ∧ (stopSession activeState).transcription
        = activeState.transcription ++ ["[Session Ended]"]
    ∧ (stopSession activeState).closeCount = activeState.closeCount + 1
    ∧ (stopSession activeState).session = none
    ∧ (stopSession activeState).sched.active = []
    ∧ (stopSession activeState).sched.stopped
        = activeState.sched.stopped ++ activeState.sched.active :=
  C3_stop_idempotent activeState 3 (by norm_num) rfl (by decide) rfl

/-- C5: a capture frame produced while the stopping latch is set is
silently dropped: the handler leaves the state unchanged, so nothing is
sent over the transport and nothing is queued. -/
theorem C5_latched_frame_dropped (s : LiveState) (inputData : List ℚ)
    (h : s.isStopping = true) :
    onaudioprocess s inputData = s := by
  unfold onaudioprocess
  rw [if_pos h]

/-- C5 (witness): a frame arriving on a latched state is dropped. -/
theorem C5_latched_frame_dropped_witness :
    onaudioprocess ({ isStopping := true } : LiveState) [1]
      = { isStopping := true } :=
  C5_latched_frame_dropped _ _ rfl

/-- C6: `stopSession` never changes the microphone-held flag — the stream
obtained from `getUserMedia` is a local of `startSession` to which the stop
path holds no reference, so the device is NOT released on stop.  The claim
(and the spec) say it must be released; this records the code bug. -/
theorem C6_stop_keeps_mic (s : LiveState) :
    (stopSession s).micHeld = s.micHeld
    ∧ (stopSession activeState).micHeld = true := by
  constructor
  · unfold stopSession
    split <;> rfl
  · rfl

/-- C7 (counterexample): `startSession` itself carries no lifecycle-state
guard: invoked on an already active state it acquires a second microphone
handle and opens a second transport connection, refuting the claim that
`start()` in a non-IDLE state is rejected without side effects. -/
theorem C7_start_unguarded :
    activeState.isActive = true
    ∧ (startSessionRun activeState).micAcquisitions = 2
    ∧ (startSessionRun activeState).connectionsOpened = 2 :=
  ⟨rfl, rfl, rfl⟩

/-- C7 (amended): the rejection lives one layer up, in the session
button: while active the button dispatches to `stopSession` and while
connecting it is disabled, so through the exposed control no additional
microphone acquisition and no additional connection can happen while the
state is not IDLE. -/
theorem C7_button_guard (s : LiveState)
    (h : s.isActive = true ∨ s.isConnecting = true) :
    (callButton s).micAcquisitions = s.micAcquisitions
    ∧ (callButton s).connectionsOpened = s.connectionsOpened := by
  unfold callButton
  rcases h with h | h
  · by_cases hc : s.isConnecting = true
    · rw [if_pos hc]
      exact ⟨rfl, rfl⟩
    · rw [if_neg hc, if_pos h]
      unfold stopSession
      split <;> exact ⟨rfl, rfl⟩
  · rw [if_pos h]
    exact ⟨rfl, rfl⟩

/-- C7 (witness): clicking the button on the concrete active fixture
acquires nothing. -/
theorem C7_button_guard_witness :
    (callButton activeState).micAcquisitions = activeState.micAcquisitions
    ∧ (callButton activeState).connectionsOpened = activeState.connectionsOpened :=
  C7_button_guard activeState (Or.inl rfl)

/-- C8 (counterexample): an authorization failure thrown during
connection open is handled by `startSession`'s catch block, which sets the
overlay flag but does not invoke `stopSession`: the stop latch stays false
and no session-ended marker is appended, refuting the claim that both
happen on either path. -/
theorem C8_open_failure_no_stop :
    (startCatch connectingState "got 403").authError = true
    ∧ (startCatch connectingState "got 403").isStopping = false
    ∧ (startCatch connectingState "got 403").transcription = [] :=
  ⟨rfl, rfl, rfl⟩

/-- C8 (amended): an authorization failure delivered through the
transport error callback sets the overlay flag and invokes `stopSession`;
an authorization failure caught during connection open sets the overlay
flag and clears the connecting indicator but does not invoke `stopSession`
(latch, transcript, session handle and close count are untouched). -/
theorem C8_auth_failure_paths (s : LiveState) (msg : String)
    (h : isAuthFailure msg = true) :
    onerror s msg = stopSession { s with authError := true }
    ∧ (onerror s msg).authError = true
    ∧ (startCatch s msg).authError = true
    ∧ (startCatch s msg).isConnecting = false
    ∧ (startCatch s msg).isStopping = s.isStopping
    ∧ (startCatch s msg).transcription = s.transcription
    ∧ (startCatch s msg).session = s.session
    ∧ (startCatch s msg).closeCount = s.closeCount := by
  have h1 : onerror s msg = stopSession { s with authError := true } := by
    unfold onerror
    rw [if_pos h]
  have h2 : startCatch s msg
      = { s with authError := true, isConnecting := false } := by
    unfold startCatch
    rw [if_pos h]
  refine ⟨h1, ?_, ?_, ?_, ?_, ?_, ?_, ?_⟩ <;>
    simp [h1, h2, stopSession_authError]

/-- C8 (witness): the two paths at the concrete message
"Permission denied" on the active fixture. -/
theorem C8_auth_failure_paths_witness :
    onerror activeState "Permission denied"
        = stopSession { activeState with authError := true }
    ∧ (onerror activeState "Permission denied").authError = true
    ∧ (startCatch activeState "Permission denied").authError = true
    ∧ (startCatch activeState "Permission denied").isConnecting = false
    ∧ (startCatch activeState "Permission denied").isStopping
        = activeState.isStopping
    ∧ (startCatch activeState "Permission denied").transcription
        = activeState.transcription
    ∧ (startCatch activeState "Permission denied").session = activeState.session
    ∧ (startCatch activeState "Permission denied").closeCount
        = activeState.closeCount :=
  C8_auth_failure_paths activeState "Permission denied" rfl

/-- Evaluation of `decodeAudioData` on odd-length input: the
`Int16Array` construction throws. -/
theorem decodeAudioData_odd (data : List ℕ) (h : data.length % 2 = 1) :
    decodeAudioData data 1 = .error () := by
  unfold decodeAudioData
  rw [if_pos (by omega)]

/-- Evaluation of `onmessage` on an audio-only message whose payload has odd
decoded byte length: the decode throws out of the handler after the cursor
pull-up already happened; nothing is scheduled. -/
theorem onmessage_malformed (s : LiveState) (now : ℚ) (payload : List Char)
    (srcId : ℕ) (hs : s.isStopping = false)
    (hodd : (decode payload).length % 2 = 1) :
    onmessage s now { audioB64 := some payload } srcId
      = ({ s with sched :=
            { s.sched with nextStartTime := max s.sched.nextStartTime now } },
         true) := by
  unfold onmessage
  rw [if_neg (by simp [hs])]
  simp only [decodeAudioData_odd _ hodd]

/-- Evaluation of `onmessage` on an audio-only message with well-formed
payload: one source is scheduled, the cursor advances, no exception. -/
theorem onmessage_wellformed (s : LiveState) (now : ℚ) (payload : List Char)
    (srcId : ℕ) (hs : s.isStopping = false)
    (heven : (decode payload).length % 2 = 0) :
    onmessage s now { audioB64 := some payload } srcId
      = ({ s with sched :=
            { s.sched with
                nextStartTime := max s.sched.nextStartTime now
                  + (((bytesToInt16s (decode payload)).map
                        (fun n : ℤ => (n : ℚ) / 32768)).length : ℚ) / 24000,
                active := s.sched.active ++ [srcId] } },
         false) := by
  unfold onmessage
  rw [if_neg (by simp [hs])]
  simp only [decodeAudioData_mono _ heven]
  simp [applyInterrupted]

/-- C9 (counterexample): the payload "AA==" decodes to a single byte, so
`decodeAudioData` throws and the exception escapes the `onmessage` handler
(there is no local try/catch), refuting the claim that the decode failure
is recovered locally with no exception escaping. -/
theorem C9_malformed_escapes :
    (onmessage activeState 0 { audioB64 := some "AA==".toList } 5).2 = true := by
  rw [onmessage_malformed activeState 0 _ 5 rfl (by decide)]

/-- C9 (amended): a malformed (odd decoded byte length) audio payload
makes the async `onmessage` handler reject after the cursor pull-up; the
offending chunk is dropped (no source scheduled), the session is neither
stopped nor closed and the transcript is untouched, and a subsequent
well-formed chunk is still processed and scheduled. -/
theorem C9_malformed_dropped (s : LiveState) (now now2 : ℚ)
    (payload payload2 : List Char) (srcId srcId2 : ℕ)
    (hs : s.isStopping = false)
    (hodd : (decode payload).length % 2 = 1)
    (heven : (decode payload2).length % 2 = 0) :
    (onmessage s now { audioB64 := some payload } srcId).2 = true
    ∧ (onmessage s now { audioB64 := some payload } srcId).1.sched.active
        = s.sched.active
    ∧ (onmessage s now { audioB64 := some payload } srcId).1.session = s.session
    ∧ (onmessage s now { audioB64 := some payload } srcId).1.isStopping = false
    ∧ (onmessage s now { audioB64 := some payload } srcId).1.transcription
        = s.transcription
    ∧ (onmessage (onmessage s now { audioB64 := some payload } srcId).1 now2
          { audioB64 := some payload2 } srcId2).2 = false
    ∧ (onmessage (onmessage s now { audioB64 := some payload } srcId).1 now2
          { audioB64 := some payload2 } srcId2).1.sched.active
        = s.sched.active ++ [srcId2] := by
  have h1 := onmessage_malformed s now payload srcId hs hodd
  refine ⟨?_, ?_, ?_, ?_, ?_, ?_, ?_⟩
  · rw [h1]
  · rw [h1]
  · rw [h1]
  · rw [h1]
    exact hs
  · rw [h1]
  · rw [h1, onmessage_wellformed _ now2 payload2 srcId2 (by simp [hs]) heven]
  · rw [h1, onmessage_wellformed _ now2 payload2 srcId2 (by simp [hs]) heven]

/-- C9 (witness): malformed payload "AA==" then well-formed payload
"AIA=" on the active fixture. -/
theorem C9_malformed_dropped_witness :
    (onmessage activeState 0 { audioB64 := some "AA==".toList } 5).2 = true
    ∧ (onmessage activeState 0 { audioB64 := some "AA==".toList } 5).1.sched.active
        = activeState.sched.active
    ∧ (onmessage activeState 0 { audioB64 := some "AA==".toList } 5).1.session
        = activeState.session
    ∧ (onmessage activeState 0 { audioB64 := some "AA==".toList } 5).1.isStopping
        = false
    ∧ (onmessage activeState 0 { audioB64 := some "AA==".toList } 5).1.transcription
        = activeState.transcription
    ∧ (onmessage (onmessage activeState 0 { audioB64 := some "AA==".toList } 5).1 0
          { audioB64 := some "AIA=".toList } 6).2 = false
    ∧ (onmessage (onmessage activeState 0 { audioB64 := some "AA==".toList } 5).1 0
          { audioB64 := some "AIA=".toList } 6).1.sched.active
        = activeState.sched.active ++ [6] :=
  C9_malformed_dropped activeState 0 0 "AA==".toList "AIA=".toList 5 6
    rfl (by decide) (by decide)

/-- C10: `startSession` begins (before touching the microphone or the
transport: `startSessionRun` factors through `startGuardReset` first) by
clearing the authorization overlay and resetting the stopping latch, so a
fresh session's capture frames are not suppressed by the previous
session's latch. -/
theorem C10_start_clears_guards (s : LiveState) (inputData : List ℚ) :
    (startGuardReset s).authError = false
    ∧ (startGuardReset s).isStopping = false
    ∧ startSessionRun s = startAcquireAndConnect (startGuardReset s)
    ∧ (onaudioprocess (startGuardReset s) inputData).sentFrames
        = (startGuardReset s).sentFrames ++ [encodeFrame inputData] := by
  refine ⟨rfl, rfl, rfl, ?_⟩
  unfold onaudioprocess
  rw [if_neg (by simp [startGuardReset])]
